import Mathlib

/-!
# rwmstatus — verification of the status aggregation pipeline

Shallow embedding of the rwmstatus sources (`src/lib.rs`, `src/main.rs`,
`src/config.rs`).  The filesystem is modelled as a partial map from full
path strings to file contents (`none` = the read fails).  Rust `u64`/`i64`
string parsing, integer `Display` formatting and the `f64` arithmetic used
for the battery percentage are embedded explicitly; `f64` values are
modelled as rationals together with the IEEE special values
(`inf`, `-inf`, `NaN`), every finite operation (the `u64` casts, the
division and the multiplication by 100) rounds its exact result to the
nearest binary64 with ties to even, and the `{:.0}` format applies
round-half-to-even to the resulting value.  Subnormal and overflow
rounding is not modelled: no value this program computes from `u64`
capacities is subnormal or overflows.
-/

/-- Filesystem model: full path → file contents (`none` = read error). -/
def FS : Type := String → Option String

/-- Rust `str::trim`: strip leading and trailing whitespace. -/
def rustTrim (s : String) : String :=
  ⟨((s.data.dropWhile Char.isWhitespace).reverse.dropWhile
      Char.isWhitespace).reverse⟩

/-- Rust `str::starts_with(char)`: the first character equals `c`. -/
def rustStartsWithChar (s : String) (c : Char) : Bool :=
  match s.data with
  | [] => false
  | x :: _ => x = c

/-- Rust `str::starts_with(&str)`: `pre` is a prefix of `s`. -/
def strStarts (pre s : String) : Bool :=
  pre.data.isPrefixOf s.data

/-- Rust `Vec<String>::join(sep)`. -/
def joinSep (sep : String) : List String → String
  | [] => ""
  | [s] => s
  | s :: t :: rest => s ++ sep ++ joinSep sep (t :: rest)

/-- One decimal digit as a character (Rust integer `Display`). -/
def digitChar (d : ℕ) : Char :=
  if d = 0 then '0' else if d = 1 then '1' else if d = 2 then '2'
  else if d = 3 then '3' else if d = 4 then '4' else if d = 5 then '5'
  else if d = 6 then '6' else if d = 7 then '7' else if d = 8 then '8'
  else '9'

/-- Decimal digit string of a natural number, most significant digit first
(fuel-indexed; `fuel ≥` number of digits suffices). -/
def natReprAuxF : ℕ → ℕ → List Char
  | 0, _ => []
  | fuel + 1, n =>
    if n < 10 then [digitChar n]
    else natReprAuxF fuel (n / 10) ++ [digitChar (n % 10)]

/-- Rust `u64` `Display`. -/
def natRepr (n : ℕ) : String :=
  ⟨natReprAuxF (n + 1) n⟩

/-- Rust `i64` `Display`. -/
def intRepr (z : ℤ) : String :=
  if z < 0 then "-" ++ natRepr z.natAbs else natRepr z.toNat

/-- Rust `format!("{:02}", v)`: zero-pad to a minimum width of 2. -/
def fmt02 (v : ℤ) : String :=
  let s := intRepr v
  if s.length < 2 then "0" ++ s else s

/-- Value of a decimal digit character. -/
def digitVal : Char → Option ℕ :=
  fun c => if c.isDigit then some (c.toNat - '0'.toNat) else none

/-- Accumulate decimal digits; fails on the first non-digit. -/
def parseDigitsAux : List Char → ℕ → Option ℕ
  | [], acc => some acc
  | c :: cs, acc =>
    match digitVal c with
    | some d => parseDigitsAux cs (acc * 10 + d)
    | none => none

/-- Rust `u64::from_str`: optional leading `+`, then one or more decimal
digits, value below `2^64`. -/
def parseU64 (s : String) : Option ℕ :=
  let cs := match s.data with
    | '+' :: rest => rest
    | other => other
  if cs = [] then none
  else
    match parseDigitsAux cs 0 with
    | some n => if n < 2 ^ 64 then some n else none
    | none => none

/-- Unsigned part of `i64::from_str` (digits already stripped of sign). -/
def parseI64Mag (cs : List Char) (bound : ℕ) : Option ℕ :=
  if cs = [] then none
  else
    match parseDigitsAux cs 0 with
    | some n => if n ≤ bound then some n else none
    | none => none

/-- Rust `i64::from_str`: optional sign, decimal digits, in-range check. -/
def parseI64 (s : String) : Option ℤ :=
  match s.data with
  | '-' :: rest => (parseI64Mag rest (2 ^ 63)).map (fun n => -(n : ℤ))
  | '+' :: rest => (parseI64Mag rest (2 ^ 63 - 1)).map (fun n => (n : ℤ))
  | other => (parseI64Mag other (2 ^ 63 - 1)).map (fun n => (n : ℤ))

/-- Model of an `f64` value: an exact rational or an IEEE special value. -/
inductive F64 : Type
  | finite (q : ℚ)
  | inf
  | negInf
  | nan
deriving DecidableEq

/-- Round to the nearest integer, ties to even (the rounding applied by
Rust's `{:.0}` float formatting). -/
def roundHalfEven (q : ℚ) : ℤ :=
  if q - ⌊q⌋ < 1 / 2 then ⌊q⌋
  else if 1 / 2 < q - ⌊q⌋ then ⌊q⌋ + 1
  else if ⌊q⌋ % 2 = 0 then ⌊q⌋ else ⌊q⌋ + 1

/-- Round an exact rational to the nearest binary64 value (round to
nearest, ties to even): the significand grid at `q` has spacing
`2 ^ (⌊log₂ q⌋ - 52)`.  Valid in the normal, non-overflowing range,
which covers every value this program derives from `u64` capacities. -/
def roundF64 (q : ℚ) : ℚ :=
  if q = 0 then 0
  else if 0 < q then
    (roundHalfEven (q * (2 : ℚ) ^ ((52 : ℤ) - Int.log 2 q)) : ℚ) *
      (2 : ℚ) ^ (Int.log 2 q - 52)
  else
    -((roundHalfEven ((-q) * (2 : ℚ) ^ ((52 : ℤ) - Int.log 2 (-q))) : ℚ) *
      (2 : ℚ) ^ (Int.log 2 (-q) - 52))

/-- `u64 as f64`: rounds to the nearest binary64. -/
def F64.ofNat (n : ℕ) : F64 :=
  .finite (roundF64 (n : ℚ))

/-- IEEE `f64` division on the model: the finite quotient is rounded to
the nearest binary64. -/
def F64.div : F64 → F64 → F64
  | .nan, _ => .nan
  | _, .nan => .nan
  | .finite a, .finite b =>
    if b = 0 then (if a = 0 then .nan else if 0 < a then .inf else .negInf)
    else .finite (roundF64 (a / b))
  | .finite _, .inf => .finite 0
  | .finite _, .negInf => .finite 0
  | .inf, .finite b => if b < 0 then .negInf else .inf
  | .negInf, .finite b => if b < 0 then .inf else .negInf
  | .inf, .inf => .nan
  | .inf, .negInf => .nan
  | .negInf, .inf => .nan
  | .negInf, .negInf => .nan

/-- IEEE `f64` multiplication on the model: the finite product is rounded
to the nearest binary64. -/
def F64.mul : F64 → F64 → F64
  | .nan, _ => .nan
  | _, .nan => .nan
  | .finite a, .finite b => .finite (roundF64 (a * b))
  | .finite a, .inf => if 0 < a then .inf else if a < 0 then .negInf else .nan
  | .finite a, .negInf => if 0 < a then .negInf else if a < 0 then .inf else .nan
  | .inf, .finite b => if 0 < b then .inf else if b < 0 then .negInf else .nan
  | .negInf, .finite b => if 0 < b then .negInf else if b < 0 then .inf else .nan
  | .inf, .inf => .inf
  | .inf, .negInf => .negInf
  | .negInf, .inf => .negInf
  | .negInf, .negInf => .inf

/-- Rust `format!("{:.0}", x)` for an `f64` value. -/
def fmtF0 : F64 → String
  | .finite q => intRepr (roundHalfEven q)
  | .inf => "inf"
  | .negInf => "-inf"
  | .nan => "NaN"

/-- Number of `|` separators occurring in a string. -/
def pipeCount (s : String) : ℕ :=
  s.data.count '|'

/-- `src/main.rs` and `src/lib.rs` `get_batt`/`get_temp` read files directly
under the device directory. -/
def readAt (fs : FS) (base name : String) : Option String :=
  fs (base ++ "/" ++ name)

/-- The `charge_full_design` read with the `energy_full_design` fallback
(`src/main.rs` lines 117–125, `src/lib.rs` lines 47–50). -/
def readFullDesign (fs : FS) (batt : String) : Option String :=
  match readAt fs batt "charge_full_design" with
  | some contents => some contents
  | none => readAt fs batt "energy_full_design"

/-- The `charge_now` read with the `energy_now` fallback
(`src/main.rs` lines 132–140, `src/lib.rs` lines 52–55). -/
def readNow (fs : FS) (batt : String) : Option String :=
  match readAt fs batt "charge_now" with
  | some contents => some contents
  | none => readAt fs batt "energy_now"

/-- The status character mapping shared by both `get_batt` versions
(`src/main.rs` lines 147–157, `src/lib.rs` lines 57–67). -/
def statusChar (r : Option String) : Char :=
  match r with
  | some contents =>
    if rustTrim contents = "Full" then 'F'
    else if rustTrim contents = "Discharging" then '-'
    else if rustTrim contents = "Charging" then '+'
    else '?'
  | none => '?'

/-- The percentage fragment `format!("{:.0}%{}", (c as f64)/(f as f64)*100.0, st)`
(`src/main.rs` lines 159–163, `src/lib.rs` lines 69–70). -/
def battFormat (c f : ℕ) (st : Char) : String :=
  fmtF0 ((F64.ofNat c).div (F64.ofNat f) |>.mul (.finite 100)) ++ "%" ++
    String.singleton st

/-- `src/main.rs` `get_batt` (lines 107–164). -/
def mainGetBatt (fs : FS) (batt : String) : String :=
  match readAt fs batt "present" with
  | none => ""
  | some pres =>
    if rustStartsWithChar pres '1' = true then
      match readFullDesign fs batt with
      | none => ""
      | some cof =>
        match parseU64 (rustTrim cof) with
        | none => "invalid"
        | some f =>
          match readNow fs batt with
          | none => ""
          | some con =>
            match parseU64 (rustTrim con) with
            | none => "invalid"
            | some c => battFormat c f (statusChar (readAt fs batt "status"))
    else "not present"

/-- `src/config.rs` `BATT_PATH`. -/
def BATT_PATH : String := "/sys/class/power_supply"

/-- `src/config.rs` `BATTS`. -/
def BATTS : List String := ["BAT0", "BAT1"]

/-- `src/main.rs` `get_batteries` (lines 96–104): per-battery fragments. -/
def mainBattFrags (fs : FS) : List String :=
  BATTS.map (fun b => mainGetBatt fs (BATT_PATH ++ "/" ++ b))

/-- `src/main.rs` `get_batteries` (lines 96–104): joined output. -/
def mainGetBatteries (fs : FS) : String :=
  joinSep "|" (mainBattFrags fs)

/-- `src/main.rs` line 208:
`format!("T:{} L:{} B:{} {}", temps, avgs, batts, times)`. -/
def formatStatus (temps avgs batts times : String) : String :=
  "T:" ++ temps ++ " L:" ++ avgs ++ " B:" ++ batts ++ " " ++ times

/-- `src/main.rs` lines 190–200: `XOpenDisplay` either yields a handle or
null; on null the process prints the diagnostic and exits with code 1,
otherwise it proceeds into the publish loop with the handle. -/
def mainStartup (openDisplayResult : Option Unit) : Except (String × ℕ) Unit :=
  match openDisplayResult with
  | none => .error ("rwmstatus: cannot open display.", 1)
  | some d => .ok d

/-- `src/lib.rs` `StatusError` (constructors carry no payload we reason
about except the `NotPresent` path). -/
inductive SErr : Type
  | io
  | parseNum
  | parseTz (s : String)
  | notPresent (s : String)
  | system (rc : ℤ)
deriving DecidableEq

/-- `src/lib.rs` `get_temp` (lines 24–27): read `temp1_input`, trim, parse
as `i64`, divide by 1000 (`i64` division truncates) and format `{:02}`
with the degree suffix. -/
def libGetTemp (fs : FS) (hwmon : String) : Except SErr String :=
  match readAt fs hwmon "temp1_input" with
  | none => .error .io
  | some contents =>
    match parseI64 (rustTrim contents) with
    | none => .error .parseNum
    | some val => .ok (fmt02 (Int.tdiv val 1000) ++ "°C")

/-- `src/lib.rs` `get_batt` (lines 42–71). -/
def libGetBatt (fs : FS) (batt : String) : Except SErr String :=
  match readAt fs batt "present" with
  | none => .error .io
  | some pres =>
    if rustStartsWithChar pres '1' = true then
      match readFullDesign fs batt with
      | none => .error .io
      | some cof =>
        match parseU64 (rustTrim cof) with
        | none => .error .parseNum
        | some f =>
          match readNow fs batt with
          | none => .error .io
          | some con =>
            match parseU64 (rustTrim con) with
            | none => .error .parseNum
            | some c => .ok (battFormat c f (statusChar (readAt fs batt "status")))
    else .error (.notPresent batt)

/-- One sensor's fragment inside `RwmStatus::get_temperatures`
(`src/lib.rs` line 157): `get_temp(&hw_mon).unwrap_or("".into())`. -/
def tempFrag (fs : FS) (hwmon : String) : String :=
  match libGetTemp fs hwmon with
  | .ok s => s
  | .error _ => ""

/-- One battery's fragment inside `RwmStatus::get_batteries`
(`src/lib.rs` line 176): `get_batt(&batt).unwrap_or("".into())`. -/
def battFrag (fs : FS) (batt : String) : String :=
  match libGetBatt fs batt with
  | .ok s => s
  | .error _ => ""

/-- `src/lib.rs` `RwmStatus::get_temperatures` (lines 150–160). -/
def getTemperatures (fs : FS) (hwMons : List String) : Option String :=
  if hwMons = [] then none
  else some (joinSep "|" (hwMons.map (tempFrag fs)))

/-- `src/lib.rs` `RwmStatus::get_batteries` (lines 169–179). -/
def getBatteries (fs : FS) (batts : List String) : Option String :=
  if batts = [] then none
  else some (joinSep "|" (batts.map (battFrag fs)))

/-- Lexicographic comparison of character lists (Rust compares paths
byte-wise; on UTF-8 data byte order and code-point order coincide). -/
def lexLe : List Char → List Char → Bool
  | [], _ => true
  | _ :: _, [] => false
  | a :: as, b :: bs =>
    if a < b then true else if b < a then false else lexLe as bs

/-- The ascending path order used by `paths.sort_unstable()`
(`src/lib.rs` line 145). -/
def pathLe (a b : String) : Prop :=
  lexLe a.data b.data = true

instance : DecidableRel pathLe :=
  fun a b => inferInstanceAs (Decidable (lexLe a.data b.data = true))

instance : IsTotal String pathLe where
  total := by
    have aux : ∀ as bs : List Char, lexLe as bs = true ∨ lexLe bs as = true := by
      intro as
      induction as with
      | nil => intro bs; left; rfl
      | cons a as ih =>
        intro bs
        cases bs with
        | nil => right; rfl
        | cons b bs =>
          rcases lt_trichotomy a b with h | h | h
          · left; simp [lexLe, h]
          · subst h
            rcases ih bs with h2 | h2
            · left; simp [lexLe, lt_irrefl, h2]
            · right; simp [lexLe, lt_irrefl, h2]
          · right; simp [lexLe, h]
    intro a b
    exact aux a.data b.data

instance : IsTrans String pathLe where
  trans := by
    have aux : ∀ as bs cs : List Char, lexLe as bs = true → lexLe bs cs = true →
        lexLe as cs = true := by
      intro as
      induction as with
      | nil => intro bs cs _ _; rfl
      | cons a as ih =>
        intro bs cs hab hbc
        cases bs with
        | nil => simp [lexLe] at hab
        | cons b bs =>
          cases cs with
          | nil => simp [lexLe] at hbc
          | cons c cs =>
            simp only [lexLe] at hab hbc ⊢
            rcases lt_trichotomy a b with h | h | h
            · rcases lt_trichotomy b c with h2 | h2 | h2
              · simp [lt_trans h h2]
              · subst h2; simp [h]
              · rw [if_neg (asymm h2), if_pos h2] at hbc; simp at hbc
            · subst h
              rw [if_neg (lt_irrefl a), if_neg (lt_irrefl a)] at hab
              rcases lt_trichotomy a c with h2 | h2 | h2
              · simp [h2]
              · subst h2
                rw [if_neg (lt_irrefl a), if_neg (lt_irrefl a)] at hbc
                rw [if_neg (lt_irrefl a), if_neg (lt_irrefl a)]
                exact ih bs cs hab hbc
              · rw [if_neg (asymm h2), if_pos h2] at hbc; simp at hbc
            · rw [if_neg (asymm h), if_pos h] at hab; simp at hab
    intro a b c hab hbc
    exact aux a.data b.data c.data hab hbc

instance : IsAntisymm String pathLe where
  antisymm := by
    have aux : ∀ as bs : List Char, lexLe as bs = true → lexLe bs as = true →
        as = bs := by
      intro as
      induction as with
      | nil =>
        intro bs _ hba
        cases bs with
        | nil => rfl
        | cons b bs => simp [lexLe] at hba
      | cons a as ih =>
        intro bs hab hba
        cases bs with
        | nil => simp [lexLe] at hab
        | cons b bs =>
          simp only [lexLe] at hab hba
          rcases lt_trichotomy a b with h | h | h
          · rw [if_neg (asymm h), if_pos h] at hba; simp at hba
          · subst h
            rw [if_neg (lt_irrefl a), if_neg (lt_irrefl a)] at hab hba
            rw [ih bs hab hba]
          · rw [if_neg (asymm h), if_pos h] at hab; simp at hab
    intro a b hab hba
    have h := aux a.data b.data hab hba
    cases a; cases b; exact congrArg String.mk h

/-- One `read_dir` entry: the result of `file_name().to_str()` and the full
path produced by `path()`. -/
structure DirEntry : Type where
  nameStr : Option String
  path : String
deriving DecidableEq

/-- The filter predicate of `RwmStatus::get_paths` (`src/lib.rs` lines
128–136): keep `Ok` entries whose decodable name starts with the given
name pattern. -/
def keepEntry (pre : String) (r : Except Unit DirEntry) : Bool :=
  match r with
  | .ok e =>
    match e.nameStr with
    | some n => strStarts pre n
    | none => false
  | .error _ => false

/-- The map step of `RwmStatus::get_paths` (`src/lib.rs` lines 138–143):
`Ok` entries yield their path, an `Err` entry hits the
`panic!("Unexpected file path")` branch, modelled as `none`. -/
def mapPanic : List (Except Unit DirEntry) → Option (List String)
  | [] => some []
  | (.ok e) :: rest => (mapPanic rest).map (fun l => e.path :: l)
  | (.error _) :: _ => none

/-- `RwmStatus::get_paths` (`src/lib.rs` lines 122–147).  The `read_dir`
result is the input (`none` = the directory cannot be listed); the output
is `none` exactly when the panic branch is reached. -/
def getPathsE (dir : Option (List (Except Unit DirEntry))) (pre : String) :
    Option (List String) :=
  match dir with
  | none => some []
  | some entries =>
    match mapPanic (entries.filter (keepEntry pre)) with
    | none => none
    | some paths => some (List.insertionSort pathLe paths)

/-- The path a kept entry contributes (the `Ok` arm of the map step). -/
def pathOf : Except Unit DirEntry → String
  | .ok e => e.path
  | .error _ => ""

/-- The files `get_batt` may read under a battery directory. -/
def battFileNames : List String :=
  ["present", "charge_full_design", "energy_full_design",
   "charge_now", "energy_now", "status"]

/-- Concrete filesystem: battery not present, every other file readable
but containing garbage. -/
def exFS2 : FS := fun p =>
  if p = "/sys/class/power_supply/BAT0/present" then some "0\n"
  else some "garbage"

/-- Concrete filesystem: present battery at 5000/2000 capacity,
discharging. -/
def exFS4 : FS := fun p =>
  if p = "B/present" then some "1\n"
  else if p = "B/charge_full_design" then some "2000\n"
  else if p = "B/charge_now" then some "5000\n"
  else if p = "B/status" then some "Discharging\n"
  else none

/-- Concrete filesystem: present battery with `charge_full_design = 200`
and `charge_now = 203` (the double-rounding case). -/
def exFS4b : FS := fun p =>
  if p = "B/present" then some "1\n"
  else if p = "B/charge_full_design" then some "200\n"
  else if p = "B/charge_now" then some "203\n"
  else none

/-- Concrete filesystem: present battery with `charge_full_design = 8`
and `charge_now = 3` (the exact-tie case). -/
def exFS4c : FS := fun p =>
  if p = "B/present" then some "1\n"
  else if p = "B/charge_full_design" then some "8\n"
  else if p = "B/charge_now" then some "3\n"
  else none

/-- Concrete filesystem: one sensor reading 45000 millidegrees. -/
def exFS5 : FS := fun p =>
  if p = "mon/temp1_input" then some "45000\n" else none

/-- Concrete filesystem: present battery whose full-capacity file parses
as zero. -/
def exFS9 : FS := fun p =>
  if p = "B/present" then some "1\n"
  else if p = "B/charge_full_design" then some "0\n"
  else if p = "B/charge_now" then some "1000\n"
  else none

/-! ## Helper lemmas -/

theorem digitChar_ne_pipe (d : ℕ) : digitChar d ≠ '|' := by
  unfold digitChar
  split_ifs <;> decide

theorem natReprAuxF_no_pipe : ∀ fuel n, '|' ∉ natReprAuxF fuel n := by
  intro fuel
  induction fuel with
  | zero => intro n; simp [natReprAuxF]
  | succ k ih =>
    intro n
    unfold natReprAuxF
    split_ifs with h
    · simp only [List.mem_singleton]
      exact fun heq => digitChar_ne_pipe n heq.symm
    · intro hmem
      rcases List.mem_append.mp hmem with h1 | h1
      · exact ih _ h1
      · exact digitChar_ne_pipe (n % 10) (List.mem_singleton.mp h1).symm

theorem pipeCount_append (a b : String) :
    pipeCount (a ++ b) = pipeCount a + pipeCount b := by
  cases a with
  | mk la =>
    cases b with
    | mk lb =>
      change (la ++ lb).count '|' = la.count '|' + lb.count '|'
      exact List.count_append '|' la lb

theorem pipeCount_natRepr (n : ℕ) : pipeCount (natRepr n) = 0 := by
  change (natReprAuxF (n + 1) n).count '|' = 0
  exact List.count_eq_zero.mpr (natReprAuxF_no_pipe (n + 1) n)

theorem pipeCount_intRepr (z : ℤ) : pipeCount (intRepr z) = 0 := by
  unfold intRepr
  split_ifs with h
  · rw [pipeCount_append, pipeCount_natRepr]
    decide
  · exact pipeCount_natRepr z.toNat

theorem pipeCount_fmt02 (v : ℤ) : pipeCount (fmt02 v) = 0 := by
  show pipeCount (if (intRepr v).length < 2 then "0" ++ intRepr v else intRepr v) = 0
  split_ifs with h
  · rw [pipeCount_append, pipeCount_intRepr]
    decide
  · exact pipeCount_intRepr v

theorem pipeCount_fmtF0 (x : F64) : pipeCount (fmtF0 x) = 0 := by
  cases x with
  | finite q => exact pipeCount_intRepr (roundHalfEven q)
  | inf => rfl
  | negInf => rfl
  | nan => rfl

theorem statusChar_ne_pipe (r : Option String) : statusChar r ≠ '|' := by
  cases r with
  | none => decide
  | some contents =>
    show (if rustTrim contents = "Full" then 'F'
      else if rustTrim contents = "Discharging" then '-'
      else if rustTrim contents = "Charging" then '+' else '?') ≠ '|'
    split_ifs <;> decide

theorem pipeCount_singleton {c : Char} (h : c ≠ '|') :
    pipeCount (String.singleton c) = 0 := by
  change ([c].count '|') = 0
  rw [List.count_eq_zero]
  simp only [List.mem_singleton]
  exact fun heq => h heq.symm

theorem pipeCount_battFormat (c f : ℕ) (r : Option String) :
    pipeCount (battFormat c f (statusChar r)) = 0 := by
  unfold battFormat
  rw [pipeCount_append, pipeCount_append, pipeCount_fmtF0,
    pipeCount_singleton (statusChar_ne_pipe r)]
  rfl

theorem pipeCount_joinSep (l : List String) (hne : l ≠ [])
    (hall : ∀ s ∈ l, pipeCount s = 0) :
    pipeCount (joinSep "|" l) + 1 = l.length := by
  induction l with
  | nil => exact absurd rfl hne
  | cons s rest ih =>
    cases rest with
    | nil => simp [joinSep, hall s (by simp)]
    | cons t rs =>
      have hs := hall s (by simp)
      have hrest : ∀ x ∈ t :: rs, pipeCount x = 0 :=
        fun x hx => hall x (by simp [hx])
      have ihh := ih (by simp) hrest
      show pipeCount (s ++ "|" ++ joinSep "|" (t :: rs)) + 1 = (t :: rs).length + 1
      rw [pipeCount_append, pipeCount_append, hs]
      have hp : pipeCount "|" = 1 := by decide
      rw [hp]
      omega

theorem libGetTemp_ok_shape (fs : FS) (d s : String)
    (h : libGetTemp fs d = .ok s) :
    ∃ v : ℤ, s = fmt02 (Int.tdiv v 1000) ++ "°C" := by
  unfold libGetTemp at h
  split at h
  · exact absurd h (by simp)
  · split at h
    · exact absurd h (by simp)
    · next v _ => exact ⟨v, (Except.ok.inj h).symm⟩

theorem libGetBatt_ok_shape (fs : FS) (b s : String)
    (h : libGetBatt fs b = .ok s) :
    ∃ c f : ℕ, s = battFormat c f (statusChar (readAt fs b "status")) := by
  unfold libGetBatt at h
  split at h
  · exact absurd h (by simp)
  · split_ifs at h
    split at h
    · exact absurd h (by simp)
    · split at h
      · exact absurd h (by simp)
      · next f _ =>
        split at h
        · exact absurd h (by simp)
        · split at h
          · exact absurd h (by simp)
          · next c _ => exact ⟨c, f, (Except.ok.inj h).symm⟩

theorem pipeCount_tempFrag (fs : FS) (d : String) :
    pipeCount (tempFrag fs d) = 0 := by
  unfold tempFrag
  split
  · next s hl =>
    obtain ⟨v, rfl⟩ := libGetTemp_ok_shape fs d s hl
    rw [pipeCount_append, pipeCount_fmt02]
    rfl
  · rfl

theorem pipeCount_battFrag (fs : FS) (b : String) :
    pipeCount (battFrag fs b) = 0 := by
  unfold battFrag
  split
  · next s hl =>
    obtain ⟨c, f, rfl⟩ := libGetBatt_ok_shape fs b s hl
    exact pipeCount_battFormat c f _
  · rfl

theorem roundHalfEven_intCast (z : ℤ) : roundHalfEven (z : ℚ) = z := by
  unfold roundHalfEven
  simp only [Int.floor_intCast, sub_self]
  norm_num

theorem roundHalfEven_eq_of (q : ℚ) (n : ℤ) (h1 : (n : ℚ) ≤ q)
    (h2 : q - (n : ℚ) < 1 / 2) : roundHalfEven q = n := by
  have hf : ⌊q⌋ = n := Int.floor_eq_iff.mpr ⟨h1, by linarith⟩
  unfold roundHalfEven
  rw [hf, if_pos h2]

theorem roundHalfEven_eq_of_tie (q : ℚ) (n : ℤ) (h1 : (n : ℚ) ≤ q)
    (h2 : q - (n : ℚ) = 1 / 2) (h3 : n % 2 = 1) : roundHalfEven q = n + 1 := by
  have hf : ⌊q⌋ = n := Int.floor_eq_iff.mpr ⟨h1, by linarith⟩
  unfold roundHalfEven
  rw [hf, h2, if_neg (lt_irrefl _), if_neg (lt_irrefl _), if_neg (by omega)]

theorem floor_le_roundHalfEven (q : ℚ) : ⌊q⌋ ≤ roundHalfEven q := by
  unfold roundHalfEven
  split_ifs <;> omega

theorem roundF64_pos_eq (q : ℚ) (e : ℤ) (hq : 0 < q)
    (h1 : (2 : ℚ) ^ e ≤ q) (h2 : q < (2 : ℚ) ^ (e + 1)) :
    roundF64 q =
      (roundHalfEven (q * (2 : ℚ) ^ ((52 : ℤ) - e)) : ℚ) *
        (2 : ℚ) ^ (e - 52) := by
  have hlog : Int.log 2 q = e := by
    have hle : e ≤ Int.log 2 q := by
      rw [← Int.zpow_le_iff_le_log (by norm_num : 1 < 2) hq]
      push_cast
      exact h1
    have hlt : Int.log 2 q < e + 1 := by
      rw [← Int.lt_zpow_iff_log_lt (by norm_num : 1 < 2) hq]
      push_cast
      exact h2
    omega
  unfold roundF64
  rw [if_neg (ne_of_gt hq), if_pos hq, hlog]

theorem roundF64_exact (q : ℚ) (e z : ℤ) (hq : 0 < q)
    (h1 : (2 : ℚ) ^ e ≤ q) (h2 : q < (2 : ℚ) ^ (e + 1))
    (hz : q * (2 : ℚ) ^ ((52 : ℤ) - e) = (z : ℚ)) : roundF64 q = q := by
  rw [roundF64_pos_eq q e hq h1 h2, hz, roundHalfEven_intCast, ← hz, mul_assoc,
    ← zpow_add₀ (by norm_num : (2 : ℚ) ≠ 0)]
  norm_num

theorem roundF64_zero : roundF64 0 = 0 := by
  unfold roundF64
  rw [if_pos rfl]

theorem roundF64_pos (q : ℚ) (hq : 0 < q) : 0 < roundF64 q := by
  have h1 : (2 : ℚ) ^ (Int.log 2 q) ≤ q := by
    have := Int.zpow_log_le_self (by norm_num : 1 < 2) hq
    push_cast at this
    exact this
  have hx1 : (1 : ℚ) ≤ q * (2 : ℚ) ^ ((52 : ℤ) - Int.log 2 q) := by
    have hpow : (0 : ℚ) < (2 : ℚ) ^ ((52 : ℤ) - Int.log 2 q) := by positivity
    have hstep : (2 : ℚ) ^ (Int.log 2 q) * (2 : ℚ) ^ ((52 : ℤ) - Int.log 2 q) ≤
        q * (2 : ℚ) ^ ((52 : ℤ) - Int.log 2 q) :=
      mul_le_mul_of_nonneg_right h1 (le_of_lt hpow)
    have hpw : (2 : ℚ) ^ (Int.log 2 q) * (2 : ℚ) ^ ((52 : ℤ) - Int.log 2 q) =
        (2 : ℚ) ^ ((52 : ℤ)) := by
      rw [← zpow_add₀ (by norm_num : (2 : ℚ) ≠ 0)]
      norm_num
    rw [hpw] at hstep
    calc (1 : ℚ) ≤ (2 : ℚ) ^ ((52 : ℤ)) := by norm_num
      _ ≤ _ := hstep
  have hfl : (1 : ℤ) ≤ ⌊q * (2 : ℚ) ^ ((52 : ℤ) - Int.log 2 q)⌋ := by
    rw [Int.le_floor]
    push_cast
    exact hx1
  have hrh : (1 : ℤ) ≤ roundHalfEven (q * (2 : ℚ) ^ ((52 : ℤ) - Int.log 2 q)) :=
    le_trans hfl (floor_le_roundHalfEven _)
  unfold roundF64
  rw [if_neg (ne_of_gt hq), if_pos hq]
  have hc : (0 : ℚ) <
      (roundHalfEven (q * (2 : ℚ) ^ ((52 : ℤ) - Int.log 2 q)) : ℚ) := by
    exact_mod_cast lt_of_lt_of_le zero_lt_one hrh
  have hp2 : (0 : ℚ) < (2 : ℚ) ^ (Int.log 2 q - 52) := by positivity
  positivity

theorem roundF64_one : roundF64 1 = 1 :=
  roundF64_exact 1 0 (2 ^ 52) one_pos (by norm_num) (by norm_num) (by norm_num)

theorem roundF64_hundred : roundF64 100 = 100 :=
  roundF64_exact 100 6 (100 * 2 ^ 46) (by norm_num) (by norm_num) (by norm_num)
    (by norm_num)

theorem keepEntry_ok {pre : String} {r : Except Unit DirEntry}
    (h : keepEntry pre r = true) :
    ∃ e, r = .ok e ∧ ∃ n, e.nameStr = some n ∧ strStarts pre n = true := by
  cases r with
  | error u => exact absurd h (by simp [keepEntry])
  | ok e =>
    refine ⟨e, rfl, ?_⟩
    cases hn : e.nameStr with
    | none => rw [show keepEntry pre (.ok e) = false by simp [keepEntry, hn]] at h; exact absurd h (by simp)
    | some n =>
      refine ⟨n, rfl, ?_⟩
      have : keepEntry pre (.ok e) = strStarts pre n := by simp [keepEntry, hn]
      rw [this] at h
      exact h

theorem mapPanic_keep (pre : String) :
    ∀ l : List (Except Unit DirEntry),
      (∀ r ∈ l, keepEntry pre r = true) →
      mapPanic l = some (l.map pathOf) := by
  intro l
  induction l with
  | nil => intro _; rfl
  | cons r rest ih =>
    intro hall
    obtain ⟨e, rfl, -⟩ := keepEntry_ok (hall r (by simp))
    have ihh := ih (fun x hx => hall x (by simp [hx]))
    show (mapPanic rest).map (fun l => e.path :: l) = _
    rw [ihh]
    rfl

theorem getPathsE_eq (entries : List (Except Unit DirEntry)) (pre : String) :
    getPathsE (some entries) pre =
      some (List.insertionSort pathLe
        ((entries.filter (keepEntry pre)).map pathOf)) := by
  show (match mapPanic (entries.filter (keepEntry pre)) with
    | none => none
    | some paths => some (List.insertionSort pathLe paths)) = _
  rw [mapPanic_keep pre _ (fun r hr => (List.mem_filter.mp hr).2)]

/-! ## Claim theorems -/

/-- C1 (counterexample): with an empty temperature fragment and an empty
battery fragment the published line is `"T: L:0.00 0.00 0.00 B: 12:00"`,
with dangling `T:` and `B:` tags; the claim would instead require
`"L:0.00 0.00 0.00 12:00"`. -/
theorem c1_publish_tags_counterexample :
    formatStatus "" "0.00 0.00 0.00" "" "12:00" = "T: L:0.00 0.00 0.00 B: 12:00" ∧
    (formatStatus "" "0.00 0.00 0.00" "" "12:00" == "L:0.00 0.00 0.00 12:00") = false := by
  exact ⟨rfl, by decide⟩

/-- C1 (amended): every publish cycle formats the line as
`T:<temps> L:<avgs> B:<batts> <times>` — the three category tags are
emitted unconditionally, even when the corresponding fragment is empty
(leaving a dangling tag), the times fragment has no tag and is appended
last, and the parts are separated by single spaces. -/
theorem c1_publish_tags_amended :
    (∀ temps avgs batts times : String,
      formatStatus temps avgs batts times =
        "T:" ++ temps ++ " L:" ++ avgs ++ " B:" ++ batts ++ " " ++ times) ∧
    formatStatus "" "0.00 0.00 0.00" "" "12:00" = "T: L:0.00 0.00 0.00 B: 12:00" := by
  exact ⟨fun _ _ _ _ => rfl, rfl⟩

/-- C2: whenever a battery's `present` file is readable and does not start
with `'1'`, `main.rs` `get_batt` returns exactly the fixed
`"not present"` fragment, for every filesystem — in particular
independently of the contents or readability of the capacity and status
files. -/
theorem c2_not_present_fragment (fs : FS) (batt pres : String)
    (h1 : readAt fs batt "present" = some pres)
    (h2 : rustStartsWithChar pres '1' = false) :
    mainGetBatt fs batt = "not present" ∧
    (∀ b ∈ BATTS, batt = BATT_PATH ++ "/" ++ b →
      "not present" ∈ mainBattFrags fs) := by
  have hfrag : mainGetBatt fs batt = "not present" := by
    unfold mainGetBatt
    rw [h1]
    simp [h2]
  refine ⟨hfrag, ?_⟩
  intro b hb hbatt
  unfold mainBattFrags
  refine List.mem_map.mpr ⟨b, hb, ?_⟩
  rw [← hbatt]
  exact hfrag

/-- C2 witness: `BAT0` whose `present` file reads `"0\n"` while every other
file reads garbage yields the fixed `"not present"` fragment, and the
fragment appears in the battery category output. -/
theorem c2_not_present_fragment_witness :
    mainGetBatt exFS2 "/sys/class/power_supply/BAT0" = "not present" ∧
    (∀ b ∈ BATTS, "/sys/class/power_supply/BAT0" = BATT_PATH ++ "/" ++ b →
      "not present" ∈ mainBattFrags exFS2) :=
  c2_not_present_fragment exFS2 "/sys/class/power_supply/BAT0" "0\n" rfl rfl

/-- C7: if the base directory cannot be listed, `get_paths` returns the
empty sequence instead of failing, and with an empty device list the
corresponding aggregator category is absent (`None`). -/
theorem c7_unlistable_dir_is_empty :
    (∀ pre, getPathsE none pre = some []) ∧
    (∀ fs : FS, getTemperatures fs [] = none ∧ getBatteries fs [] = none) := by
  exact ⟨fun _ => rfl, fun _ => ⟨rfl, rfl⟩⟩

/-- C8: when the display handle cannot be acquired the startup path yields
the diagnostic `"rwmstatus: cannot open display."` together with exit
code 1 (non-zero) before any publish cycle; with a handle it proceeds. -/
theorem c8_fatal_display_startup :
    mainStartup none = .error ("rwmstatus: cannot open display.", 1) ∧
    (∀ d, mainStartup (some d) = .ok d) ∧ 0 < 1 := by
  exact ⟨rfl, fun _ => rfl, Nat.zero_lt_one⟩

/-- C10: the `panic!` branch in `get_paths` is unreachable — the filter
retains only `Ok` entries, so enumeration returns normally on every
`read_dir` result list, including ones containing errored entries. -/
theorem c10_panic_unreachable :
    ∀ (entries : List (Except Unit DirEntry)) (pre : String),
      ∃ out, getPathsE (some entries) pre = some out :=
  fun entries pre => ⟨_, getPathsE_eq entries pre⟩

/-- C5: when `temp1_input` is readable and its trimmed contents parse as an
`i64` value `v`, `lib.rs` `get_temp` returns the value divided by 1000
(Rust `i64` division truncates) formatted `{:02}` with the degree suffix;
a read failure or a parse failure degrades the sensor's fragment to empty
inside `get_temperatures`. -/
theorem c5_temperature_readout (fs : FS) (d contents : String) (v : ℤ)
    (h1 : readAt fs d "temp1_input" = some contents)
    (h2 : parseI64 (rustTrim contents) = some v) :
    libGetTemp fs d = .ok (fmt02 (Int.tdiv v 1000) ++ "°C") ∧
    tempFrag fs d = fmt02 (Int.tdiv v 1000) ++ "°C" ∧
    (∀ fs' : FS, readAt fs' d "temp1_input" = none → tempFrag fs' d = "") ∧
    (∀ (fs' : FS) (c' : String), readAt fs' d "temp1_input" = some c' →
      parseI64 (rustTrim c') = none → tempFrag fs' d = "") := by
  have hok : libGetTemp fs d = .ok (fmt02 (Int.tdiv v 1000) ++ "°C") := by
    unfold libGetTemp
    rw [h1]
    dsimp only
    rw [h2]
  refine ⟨hok, by unfold tempFrag; rw [hok], ?_, ?_⟩
  · intro fs' h
    unfold tempFrag libGetTemp
    rw [h]
  · intro fs' c' h hp
    unfold tempFrag libGetTemp
    rw [h]
    dsimp only
    rw [hp]

/-- C5 witness: the sensor file containing `"45000\n"` renders `"45°C"`. -/
theorem c5_temperature_readout_witness : tempFrag exFS5 "mon" = "45°C" := by
  have h := c5_temperature_readout exFS5 "mon" "45000\n" 45000 rfl (by decide)
  rw [h.2.1]
  decide

theorem string_length_append (a b : String) :
    (a ++ b).length = a.length + b.length := by
  cases a with
  | mk la =>
    cases b with
    | mk lb =>
      change (la ++ lb).length = la.length + lb.length
      exact List.length_append la lb

/-- C9: `get_batt` does not guard the capacity division — for a present
battery whose full-capacity file parses as 0, the `f64` division yields a
non-finite value and the function still returns a normally formatted
5-character fragment (`inf%…`, or `NaN%…` when the current capacity is
also 0) rather than an error, an empty fragment or a panic. -/
theorem c9_unguarded_zero_division (fs : FS) (batt pres cof con : String) (c : ℕ)
    (h1 : readAt fs batt "present" = some pres)
    (h2 : rustStartsWithChar pres '1' = true)
    (h3 : readFullDesign fs batt = some cof)
    (h4 : parseU64 (rustTrim cof) = some 0)
    (h5 : readNow fs batt = some con)
    (h6 : parseU64 (rustTrim con) = some c) :
    mainGetBatt fs batt =
      (if c = 0 then "NaN" else "inf") ++ "%" ++
        String.singleton (statusChar (readAt fs batt "status")) ∧
    (mainGetBatt fs batt).length = 5 := by
  have heq : mainGetBatt fs batt =
      battFormat c 0 (statusChar (readAt fs batt "status")) := by
    unfold mainGetBatt
    rw [h1]
    dsimp only
    rw [if_pos h2, h3]
    dsimp only
    rw [h4]
    dsimp only
    rw [h5]
    dsimp only
    rw [h6]
  have hb : battFormat c 0 (statusChar (readAt fs batt "status")) =
      (if c = 0 then "NaN" else "inf") ++ "%" ++
        String.singleton (statusChar (readAt fs batt "status")) := by
    by_cases hc : c = 0
    · have hdiv : (F64.ofNat c).div (F64.ofNat 0) = F64.nan := by
        subst hc
        simp [F64.ofNat, F64.div, roundF64_zero]
      unfold battFormat
      rw [hdiv, if_pos hc]
      simp [F64.mul, fmtF0]
    · have hcq : (0 : ℚ) < (c : ℚ) := by
        exact_mod_cast Nat.pos_of_ne_zero hc
      have hpos : 0 < roundF64 ((c : ℕ) : ℚ) := roundF64_pos _ hcq
      have hdiv : (F64.ofNat c).div (F64.ofNat 0) = F64.inf := by
        simp [F64.ofNat, F64.div, roundF64_zero, hpos, ne_of_gt hpos]
      unfold battFormat
      rw [hdiv, if_neg hc]
      have h100 : (0 : ℚ) < 100 := by norm_num
      simp [F64.mul, fmtF0, h100]
  refine ⟨heq.trans hb, ?_⟩
  rw [heq.trans hb]
  by_cases hc : c = 0
  · rw [if_pos hc, string_length_append, string_length_append]
    rfl
  · rw [if_neg hc, string_length_append, string_length_append]
    rfl

/-- C9 witness: `present="1\n"`, `charge_full_design="0\n"`,
`charge_now="1000\n"` yields a normally returned 5-character `inf%…`
fragment. -/
theorem c9_unguarded_zero_division_witness :
    mainGetBatt exFS9 "B" =
      (if (1000 : ℕ) = 0 then "NaN" else "inf") ++ "%" ++
        String.singleton (statusChar (readAt exFS9 "B" "status")) ∧
    (mainGetBatt exFS9 "B").length = 5 :=
  c9_unguarded_zero_division exFS9 "B" "1\n" "0\n" "1000\n" 1000
    rfl rfl rfl (by decide) rfl (by decide)

theorem mainGetBatt_battFormat (fs : FS) (batt pres cof con : String)
    (f c : ℕ)
    (h1 : readAt fs batt "present" = some pres)
    (h2 : rustStartsWithChar pres '1' = true)
    (h3 : readFullDesign fs batt = some cof)
    (h4 : parseU64 (rustTrim cof) = some f)
    (h5 : readNow fs batt = some con)
    (h6 : parseU64 (rustTrim con) = some c) :
    mainGetBatt fs batt =
      battFormat c f (statusChar (readAt fs batt "status")) := by
  unfold mainGetBatt
  rw [h1]
  dsimp only
  rw [if_pos h2, h3]
  dsimp only
  rw [h4]
  dsimp only
  rw [h5]
  dsimp only
  rw [h6]

theorem battFormat_eq (c f : ℕ) (st : Char) (hf : 0 < f) :
    battFormat c f st =
      intRepr (roundHalfEven (roundF64
        (roundF64 (roundF64 (c : ℚ) / roundF64 (f : ℚ)) * 100))) ++ "%" ++
        String.singleton st := by
  have hb : 0 < roundF64 ((f : ℕ) : ℚ) :=
    roundF64_pos _ (by exact_mod_cast hf)
  have hdiv : (F64.ofNat c).div (F64.ofNat f) =
      .finite (roundF64 (roundF64 (c : ℚ) / roundF64 (f : ℚ))) := by
    simp [F64.ofNat, F64.div, ne_of_gt hb]
  have hmul : (F64.finite (roundF64 (roundF64 (c : ℚ) / roundF64 (f : ℚ)))).mul
      (.finite 100) =
      .finite (roundF64 (roundF64 (roundF64 (c : ℚ) / roundF64 (f : ℚ)) * 100)) := by
    simp [F64.mul]
  unfold battFormat
  rw [hdiv, hmul]
  rfl

/-- C4 (counterexample): the claimed formula round(c/f*100) is false of the
program.  With `charge_full_design=200`, `charge_now=203` the double
pipeline computes `RN(203/200) = 1.015 − ε` and `RN(·×100) < 101.5`, so the
code emits `"101%?"`, while round(101.5) = 102 (ties to even or away from
zero).  A ties-down reading fails too: with `8`/`3` the value 37.5 is exact
and the code emits `"38%?"`, not the 37 of rounding down. -/
theorem c4_battery_percentage_counterexample :
    (mainGetBatt exFS4b "B" = "101%?" ∧
      intRepr (roundHalfEven ((203 : ℚ) / 200 * 100)) = "102" ∧
      ("101%?" == "102%?") = false) ∧
    (mainGetBatt exFS4c "B" = "38%?" ∧
      intRepr (⌊(3 : ℚ) / 8 * 100⌋) = "37" ∧
      ("38%?" == "37%?") = false) := by
  refine ⟨⟨?_, ?_, by decide⟩, ⟨?_, ?_, by decide⟩⟩
  · rw [mainGetBatt_battFormat exFS4b "B" "1\n" "200\n" "203\n" 200 203
      rfl rfl rfl (by decide) rfl (by decide)]
    rw [battFormat_eq 203 200 _ (by norm_num)]
    have h203 : roundF64 (((203 : ℕ)) : ℚ) = 203 := by
      rw [show (((203 : ℕ)) : ℚ) = 203 by norm_num]
      exact roundF64_exact 203 7 (203 * 2 ^ 45) (by norm_num) (by norm_num)
        (by norm_num) (by norm_num)
    have h200 : roundF64 (((200 : ℕ)) : ℚ) = 200 := by
      rw [show (((200 : ℕ)) : ℚ) = 200 by norm_num]
      exact roundF64_exact 200 7 (200 * 2 ^ 45) (by norm_num) (by norm_num)
        (by norm_num) (by norm_num)
    rw [h203, h200]
    have hd1 : roundF64 ((203 : ℚ) / 200) =
        (4571153621781053 : ℚ) * (2 : ℚ) ^ ((0 : ℤ) - 52) := by
      rw [roundF64_pos_eq ((203 : ℚ) / 200) 0 (by norm_num) (by norm_num)
        (by norm_num)]
      rw [roundHalfEven_eq_of _ 4571153621781053 (by norm_num) (by norm_num)]
      norm_num
    rw [hd1]
    have hd2 : roundF64 ((4571153621781053 : ℚ) * (2 : ℚ) ^ ((0 : ℤ) - 52) * 100) =
        (7142427534032895 : ℚ) * (2 : ℚ) ^ ((6 : ℤ) - 52) := by
      rw [roundF64_pos_eq _ 6 (by norm_num) (by norm_num) (by norm_num)]
      rw [roundHalfEven_eq_of _ 7142427534032895 (by norm_num) (by norm_num)]
      norm_num
    rw [hd2]
    rw [roundHalfEven_eq_of ((7142427534032895 : ℚ) * (2 : ℚ) ^ ((6 : ℤ) - 52))
      101 (by norm_num) (by norm_num)]
    have h101 : intRepr (101 : ℤ) = "101" := by decide
    rw [h101]
    decide
  · rw [roundHalfEven_eq_of_tie ((203 : ℚ) / 200 * 100) 101 (by norm_num)
      (by norm_num) (by norm_num)]
    decide
  · rw [mainGetBatt_battFormat exFS4c "B" "1\n" "8\n" "3\n" 8 3
      rfl rfl rfl (by decide) rfl (by decide)]
    rw [battFormat_eq 3 8 _ (by norm_num)]
    have h3 : roundF64 (((3 : ℕ)) : ℚ) = 3 := by
      rw [show (((3 : ℕ)) : ℚ) = 3 by norm_num]
      exact roundF64_exact 3 1 (3 * 2 ^ 51) (by norm_num) (by norm_num)
        (by norm_num) (by norm_num)
    have h8 : roundF64 (((8 : ℕ)) : ℚ) = 8 := by
      rw [show (((8 : ℕ)) : ℚ) = 8 by norm_num]
      exact roundF64_exact 8 3 (2 ^ 52) (by norm_num) (by norm_num)
        (by norm_num) (by norm_num)
    rw [h3, h8]
    have hq1 : roundF64 ((3 : ℚ) / 8) = 3 / 8 :=
      roundF64_exact ((3 : ℚ) / 8) (-2) (3 * 2 ^ 51) (by norm_num) (by norm_num)
        (by norm_num) (by norm_num)
    rw [hq1]
    have hq2 : roundF64 ((3 : ℚ) / 8 * 100) = 75 / 2 := by
      rw [show (3 : ℚ) / 8 * 100 = 75 / 2 by norm_num]
      exact roundF64_exact ((75 : ℚ) / 2) 5 (75 * 2 ^ 46) (by norm_num)
        (by norm_num) (by norm_num) (by norm_num)
    rw [hq2]
    rw [roundHalfEven_eq_of_tie ((75 : ℚ) / 2) 37 (by norm_num) (by norm_num)
      (by norm_num)]
    decide
  · rw [show ⌊(3 : ℚ) / 8 * 100⌋ = 37 from
      Int.floor_eq_iff.mpr ⟨by norm_num, by norm_num⟩]
    decide

/-- C4 (amended): for a present battery whose capacities parse as `c` and
`f` with `f > 0`, the emitted fragment is the `{:.0}` rendering (ties to
even) of the double-rounded IEEE value `RN(RN(RN(c)/RN(f))·100)` — each
step rounding to the nearest binary64 — followed by `%` and the status
character, with no clamping to [0,100]; the library `get_batt` returns the
same string, and `c = f` still yields exactly `"100%"` followed by the
status character. -/
theorem c4_battery_percentage (fs : FS) (batt pres cof con : String) (f c : ℕ)
    (h1 : readAt fs batt "present" = some pres)
    (h2 : rustStartsWithChar pres '1' = true)
    (h3 : readFullDesign fs batt = some cof)
    (h4 : parseU64 (rustTrim cof) = some f)
    (h5 : readNow fs batt = some con)
    (h6 : parseU64 (rustTrim con) = some c)
    (h7 : 0 < f) :
    mainGetBatt fs batt =
      intRepr (roundHalfEven (roundF64
        (roundF64 (roundF64 (c : ℚ) / roundF64 (f : ℚ)) * 100))) ++ "%" ++
        String.singleton (statusChar (readAt fs batt "status")) ∧
    libGetBatt fs batt = .ok (mainGetBatt fs batt) ∧
    (c = f → mainGetBatt fs batt =
      "100%" ++ String.singleton (statusChar (readAt fs batt "status"))) := by
  have heq := mainGetBatt_battFormat fs batt pres cof con f c h1 h2 h3 h4 h5 h6
  have hbf := battFormat_eq c f (statusChar (readAt fs batt "status")) h7
  have hlib : libGetBatt fs batt =
      .ok (battFormat c f (statusChar (readAt fs batt "status"))) := by
    unfold libGetBatt
    rw [h1]
    dsimp only
    rw [if_pos h2, h3]
    dsimp only
    rw [h4]
    dsimp only
    rw [h5]
    dsimp only
    rw [h6]
  refine ⟨heq.trans hbf, by rw [hlib, heq], ?_⟩
  intro hcf
  rw [heq.trans hbf, hcf]
  have hd : 0 < roundF64 ((f : ℕ) : ℚ) :=
    roundF64_pos _ (by exact_mod_cast h7)
  rw [div_self (ne_of_gt hd), roundF64_one, one_mul, roundF64_hundred]
  rw [show (100 : ℚ) = ((100 : ℤ) : ℚ) by norm_num, roundHalfEven_intCast]
  have h100 : intRepr (100 : ℤ) = "100" := by decide
  rw [h100]
  congr 1

/-- C4 witness: `present="1\n"`, `charge_full_design="2000\n"`,
`charge_now="5000\n"`, `status="Discharging\n"` yields `"250%-"` — every
double step is exact here and the percentage above 100 passes through
verbatim. -/
theorem c4_battery_percentage_witness : mainGetBatt exFS4 "B" = "250%-" := by
  have h := c4_battery_percentage exFS4 "B" "1\n" "2000\n" "5000\n" 2000 5000
    rfl rfl rfl (by decide) rfl (by decide) (by decide)
  rw [h.1]
  have h5000 : roundF64 (((5000 : ℕ)) : ℚ) = 5000 := by
    rw [show (((5000 : ℕ)) : ℚ) = 5000 by norm_num]
    exact roundF64_exact 5000 12 (5000 * 2 ^ 40) (by norm_num) (by norm_num)
      (by norm_num) (by norm_num)
  have h2000 : roundF64 (((2000 : ℕ)) : ℚ) = 2000 := by
    rw [show (((2000 : ℕ)) : ℚ) = 2000 by norm_num]
    exact roundF64_exact 2000 10 (2000 * 2 ^ 42) (by norm_num) (by norm_num)
      (by norm_num) (by norm_num)
  rw [h5000, h2000]
  rw [show (5000 : ℚ) / 2000 = 5 / 2 by norm_num]
  rw [roundF64_exact ((5 : ℚ) / 2) 1 (5 * 2 ^ 50) (by norm_num) (by norm_num)
    (by norm_num) (by norm_num)]
  rw [show (5 : ℚ) / 2 * 100 = 250 by norm_num]
  rw [roundF64_exact (250 : ℚ) 7 (250 * 2 ^ 45) (by norm_num) (by norm_num)
    (by norm_num) (by norm_num)]
  rw [show (250 : ℚ) = ((250 : ℤ) : ℚ) by norm_num, roundHalfEven_intCast]
  have h250 : intRepr (250 : ℤ) = "250" := by decide
  rw [h250]
  decide

/-- C3: the library category methods are total — with a non-empty device
list they always return a joined string whose `|`-separated field count
equals the device count, whatever the filesystem does; each device's
fragment depends only on that device's own files, and a failed read
degrades only that fragment to empty. -/
theorem c3_category_isolation :
    (∀ (fs : FS) (ds : List String), ds ≠ [] →
      ∃ out, getTemperatures fs ds = some out ∧ pipeCount out + 1 = ds.length) ∧
    (∀ (fs fs' : FS) (d : String),
      readAt fs d "temp1_input" = readAt fs' d "temp1_input" →
      tempFrag fs d = tempFrag fs' d) ∧
    (∀ (fs : FS) (d : String),
      readAt fs d "temp1_input" = none → tempFrag fs d = "") ∧
    (∀ (fs : FS) (bs : List String), bs ≠ [] →
      ∃ out, getBatteries fs bs = some out ∧ pipeCount out + 1 = bs.length) ∧
    (∀ (fs fs' : FS) (b : String),
      (∀ name ∈ battFileNames, readAt fs b name = readAt fs' b name) →
      battFrag fs b = battFrag fs' b) ∧
    (∀ (fs : FS) (b : String),
      readAt fs b "present" = none → battFrag fs b = "") := by
  refine ⟨?_, ?_, ?_, ?_, ?_, ?_⟩
  · intro fs ds hne
    refine ⟨joinSep "|" (ds.map (tempFrag fs)), ?_, ?_⟩
    · unfold getTemperatures
      rw [if_neg hne]
    · rw [pipeCount_joinSep _ (by simpa using hne)
        (fun s hs => by
          obtain ⟨d, -, rfl⟩ := List.mem_map.mp hs
          exact pipeCount_tempFrag fs d)]
      exact List.length_map ds _
  · intro fs fs' d h
    unfold tempFrag libGetTemp
    rw [h]
  · intro fs d h
    unfold tempFrag libGetTemp
    rw [h]
  · intro fs bs hne
    refine ⟨joinSep "|" (bs.map (battFrag fs)), ?_, ?_⟩
    · unfold getBatteries
      rw [if_neg hne]
    · rw [pipeCount_joinSep _ (by simpa using hne)
        (fun s hs => by
          obtain ⟨b, -, rfl⟩ := List.mem_map.mp hs
          exact pipeCount_battFrag fs b)]
      exact List.length_map bs _
  · intro fs fs' b h
    have hp := h "present" (by simp [battFileNames])
    have hcfd := h "charge_full_design" (by simp [battFileNames])
    have hefd := h "energy_full_design" (by simp [battFileNames])
    have hcn := h "charge_now" (by simp [battFileNames])
    have hen := h "energy_now" (by simp [battFileNames])
    have hst := h "status" (by simp [battFileNames])
    unfold battFrag libGetBatt readFullDesign readNow
    rw [hp, hcfd, hefd, hcn, hen, hst]
  · intro fs b h
    unfold battFrag libGetBatt
    rw [h]

/-- C3 witness: two sensors whose reads all fail still produce a joined
output with exactly two (empty) fields. -/
theorem c3_category_isolation_witness :
    getTemperatures (fun _ => none) ["m0", "m1"] = some "|" ∧
    pipeCount "|" + 1 = (["m0", "m1"] : List String).length := by
  obtain ⟨out, h1, h2⟩ :=
    c3_category_isolation.1 (fun _ => none) ["m0", "m1"] (by decide)
  have he : getTemperatures (fun _ => none) ["m0", "m1"] = some "|" := by decide
  rw [he] at h1
  injection h1 with h1
  subst h1
  exact ⟨he, h2⟩

/-- C6: enumeration output is sorted by full path ascending, contains
exactly the `Ok` entries whose decodable name starts with the pattern, and
is stable: any permutation of the `read_dir` listing (the order the OS
returns is arbitrary) yields the identical sorted sequence. -/
theorem c6_enumeration_sorted (entries entries' : List (Except Unit DirEntry))
    (pre : String) (out : List String)
    (h : getPathsE (some entries) pre = some out) :
    List.Sorted pathLe out ∧
    (∀ s, s ∈ out ↔ ∃ e : DirEntry, Except.ok e ∈ entries ∧
      (∃ n, e.nameStr = some n ∧ strStarts pre n = true) ∧ e.path = s) ∧
    (entries.Perm entries' → getPathsE (some entries') pre = some out) := by
  have hout : out = List.insertionSort pathLe
      ((entries.filter (keepEntry pre)).map pathOf) :=
    (Option.some.inj ((getPathsE_eq entries pre).symm.trans h)).symm
  refine ⟨?_, ?_, ?_⟩
  · rw [hout]
    exact List.sorted_insertionSort pathLe _
  · intro s
    rw [hout]
    constructor
    · intro hs
      have hs2 : s ∈ (entries.filter (keepEntry pre)).map pathOf :=
        (List.Perm.mem_iff (List.perm_insertionSort pathLe _)).mp hs
      obtain ⟨r, hr, rfl⟩ := List.mem_map.mp hs2
      have hrf := List.mem_filter.mp hr
      obtain ⟨e, rfl, n, hn, hstart⟩ := keepEntry_ok hrf.2
      exact ⟨e, hrf.1, ⟨n, hn, hstart⟩, rfl⟩
    · rintro ⟨e, he, ⟨n, hn, hstart⟩, rfl⟩
      have hkeep : keepEntry pre (.ok e) = true := by
        simp [keepEntry, hn, hstart]
      have hmemf : (Except.ok e) ∈ entries.filter (keepEntry pre) :=
        List.mem_filter.mpr ⟨he, hkeep⟩
      have hmemm : e.path ∈ (entries.filter (keepEntry pre)).map pathOf :=
        List.mem_map.mpr ⟨_, hmemf, rfl⟩
      exact (List.Perm.mem_iff (List.perm_insertionSort pathLe _)).mpr hmemm
  · intro hperm
    rw [getPathsE_eq entries' pre, hout]
    have hp : (List.insertionSort pathLe
        ((entries'.filter (keepEntry pre)).map pathOf)).Perm
        (List.insertionSort pathLe
          ((entries.filter (keepEntry pre)).map pathOf)) :=
      ((List.perm_insertionSort pathLe _).trans
        (((hperm.filter _).map pathOf).symm)).trans
        (List.perm_insertionSort pathLe _).symm
    rw [List.eq_of_perm_of_sorted hp
      (List.sorted_insertionSort pathLe _)
      (List.sorted_insertionSort pathLe _)]

/-- C6 witness: a `read_dir` listing containing an errored entry and
unsorted `hwmon*` entries enumerates to the sorted path list, and the
permuted listing yields the identical output. -/
theorem c6_enumeration_sorted_witness :
    List.Sorted pathLe ["/b/hwmon0", "/b/hwmon2"] ∧
    (∀ s, s ∈ (["/b/hwmon0", "/b/hwmon2"] : List String) ↔ ∃ e : DirEntry,
      Except.ok e ∈ [Except.ok (⟨some "hwmon2", "/b/hwmon2"⟩ : DirEntry),
        .error (), .ok ⟨some "hwmon0", "/b/hwmon0"⟩, .ok ⟨some "xx", "/b/xx"⟩] ∧
      (∃ n, e.nameStr = some n ∧ strStarts "hwmon" n = true) ∧ e.path = s) ∧
    (([Except.ok (⟨some "hwmon2", "/b/hwmon2"⟩ : DirEntry),
        .error (), .ok ⟨some "hwmon0", "/b/hwmon0"⟩,
        .ok ⟨some "xx", "/b/xx"⟩] : List (Except Unit DirEntry)).Perm
      [Except.ok (⟨some "hwmon0", "/b/hwmon0"⟩ : DirEntry),
        .ok ⟨some "xx", "/b/xx"⟩, .error (), .ok ⟨some "hwmon2", "/b/hwmon2"⟩] →
      getPathsE (some [Except.ok (⟨some "hwmon0", "/b/hwmon0"⟩ : DirEntry),
        .ok ⟨some "xx", "/b/xx"⟩, .error (), .ok ⟨some "hwmon2", "/b/hwmon2"⟩])
        "hwmon" = some ["/b/hwmon0", "/b/hwmon2"]) :=
  c6_enumeration_sorted
    [Except.ok (⟨some "hwmon2", "/b/hwmon2"⟩ : DirEntry),
      .error (), .ok ⟨some "hwmon0", "/b/hwmon0"⟩, .ok ⟨some "xx", "/b/xx"⟩]
    [Except.ok (⟨some "hwmon0", "/b/hwmon0"⟩ : DirEntry),
      .ok ⟨some "xx", "/b/xx"⟩, .error (), .ok ⟨some "hwmon2", "/b/hwmon2"⟩]
    "hwmon" ["/b/hwmon0", "/b/hwmon2"] (by decide)
